import Mathlib

/-!
Verification of the amass discovery-engine sources: the scope-membership
test, the TTL-gated plugin handlers, DNS graph traversal, and the session
manager lifecycle, embedded shallowly and checked against the written
specification.

Go strings are modelled as lists of Unicode code points (`GoStr`); case
mapping is modelled on the ASCII range, which covers every string these
claims are about.
-/

namespace Amass

abbrev GoStr := List Nat

/-- Code points of a Lean string literal, used to write concrete Go strings. -/
def strOf (s : String) : GoStr := s.toList.map Char.toNat

/-- ASCII lower-casing of one code point, as `unicode.ToLower` acts on ASCII. -/
def lowerRune (r : Nat) : Nat := if 65 ≤ r ∧ r ≤ 90 then r + 32 else r

/-- Model of Go `strings.ToLower`. -/
def toLowerStr (s : GoStr) : GoStr := s.map lowerRune

/-- Whitespace test matching `unicode.IsSpace` on the ASCII range. -/
def isSpaceRune (r : Nat) : Bool := r = 32 || r = 9 || r = 10 || r = 13 || r = 11 || r = 12

/-- Model of Go `strings.TrimSpace`. -/
def trimSpace (s : GoStr) : GoStr :=
  ((s.dropWhile isSpaceRune).reverse.dropWhile isSpaceRune).reverse

/-- Model of Go `strings.HasSuffix`. -/
def hasSuffix (s suffix : GoStr) : Bool := decide (suffix <:+ s)

/-- Model of Go `strings.EqualFold` restricted to ASCII folding. -/
def equalFold (a b : GoStr) : Bool := toLowerStr a == toLowerStr b

/-!
Scope membership, from `cmd/amass/subs.go`: `domainNameInScope` lower-cases
the trimmed candidate name and reports whether it equals a configured root
domain or ends with `"." + root`, with the root also lower-cased.
-/

/-- Embedding of `domainNameInScope` from `cmd/amass/subs.go`. -/
def domainNameInScope (name : GoStr) (scope : List GoStr) : Bool :=
  let n := toLowerStr (trimSpace name)
  scope.any fun d =>
    let dl := toLowerStr d
    n == dl || hasSuffix n (46 :: dl)

/-- Claim C1: scope membership is suffix-based and case-insensitive.  For a
domain name (a string unaffected by whitespace trimming) the test is positive
iff some configured root domain equals the name or is a `"." + root` suffix of
it, both compared after lower-casing. -/
theorem domainNameInScope_iff (name : GoStr) (scope : List GoStr)
    (h : trimSpace name = name) :
    domainNameInScope name scope = true ↔
      ∃ r ∈ scope, toLowerStr name = toLowerStr r ∨
        (46 :: toLowerStr r) <:+ toLowerStr name := by
  simp [domainNameInScope, h, hasSuffix, List.any_eq_true]

/-- Witness for C1: the root `example.com` matches `EXAMPLE.com` exactly and
`api.example.com` by suffix, and fails to match `notexample.com`. -/
theorem domainNameInScope_iff_witness :
    (domainNameInScope (strOf "EXAMPLE.com") [strOf "example.com"] = true ↔
      ∃ r ∈ [strOf "example.com"],
        toLowerStr (strOf "EXAMPLE.com") = toLowerStr r ∨
          (46 :: toLowerStr r) <:+ toLowerStr (strOf "EXAMPLE.com")) ∧
    (domainNameInScope (strOf "notexample.com") [strOf "example.com"] = true ↔
      ∃ r ∈ [strOf "example.com"],
        toLowerStr (strOf "notexample.com") = toLowerStr r ∨
          (46 :: toLowerStr r) <:+ toLowerStr (strOf "notexample.com")) :=
  ⟨domainNameInScope_iff (strOf "EXAMPLE.com") [strOf "example.com"] (by decide),
   domainNameInScope_iff (strOf "notexample.com") [strOf "example.com"] (by decide)⟩

/-!
Session state and lifecycle, from `engine/sessions` (`part_000`): the done
channel is modelled by a flag, and the resources owned by a session by the
flags the manager's cleanup consults.
-/

structure SessionStats where
  workItemsCompleted : Int
  workItemsTotal : Int
  deriving DecidableEq, Repr

structure SessionState where
  done : Bool
  deleted : Bool
  hasCache : Bool
  tmpDir : GoStr
  hasDB : Bool
  hasEventSet : Bool
  deriving DecidableEq, Repr

/-- Embedding of `Session.Done`: reports whether the done channel is closed. -/
def sessionDoneQ (s : SessionState) : Bool := s.done

/-- Embedding of `Session.Kill`: closes the done channel unless it is already
closed.  The returned flag records whether this call actually broadcast. -/
def sessionKillOnce (s : SessionState) : SessionState × Bool :=
  if s.done then (s, false) else ({ s with done := true }, true)

/-- Claim C8: `Session.Kill` is idempotent.  After a first `Kill` the session
reports done; a second `Kill` changes nothing and does not broadcast again;
the done signal is broadcast exactly on the transition from not-done. -/
theorem sessionKill_idempotent (s : SessionState) :
    sessionDoneQ (sessionKillOnce s).1 = true ∧
    (sessionKillOnce (sessionKillOnce s).1).1 = (sessionKillOnce s).1 ∧
    (sessionKillOnce (sessionKillOnce s).1).2 = false ∧
    ((sessionKillOnce s).2 = true ↔ s.done = false) := by
  unfold sessionKillOnce sessionDoneQ
  by_cases h : s.done <;> simp [h]

/-!
Session manager construction, from `engine/sessions/manager.go`: the Redis
address and password are hardcoded constants, checked for emptiness before
the Redis ping.
-/

inductive NewManagerResult
  | ok
  | errRedisNotSet
  | errPingFailed
  deriving DecidableEq, Repr

/-- Embedding of `NewManager` from `engine/sessions/manager.go`, with the
Redis ping outcome as an input. -/
def NewManager (pingOk : Bool) : NewManagerResult :=
  let redisAddr := strOf "redis:6379"
  let redisPassword := strOf "amass4OWASP"
  if redisAddr = [] ∨ redisPassword = [] then .errRedisNotSet
  else if ¬pingOk then .errPingFailed
  else .ok

/-- Claim C10: the "Redis address or password not set" branch of `NewManager`
is unreachable, because the address and password are non-empty constants; the
constructor fails only when the Redis ping fails. -/
theorem newManager_notset_unreachable :
    ∀ pingOk, NewManager pingOk ≠ NewManagerResult.errRedisNotSet ∧
      NewManager pingOk = (if pingOk then .ok else .errPingFailed) := by
  decide

/-!
Graph traversal helpers, from `utils/addr.go`.  The asset-db repository is
modelled by its three calls the traversal code uses; edges carry the DNS
relation variant and record type from the open-asset-model relations.
-/

inductive OAMAsset
  | fqdn (name : GoStr)
  | ipaddr (address : GoStr)
  deriving DecidableEq, Repr

/-- Content key of an asset, as `Asset.Key()` returns the canonical value. -/
def OAMAsset.key : OAMAsset → GoStr
  | .fqdn n => n
  | .ipaddr a => a

structure Entity where
  id : Nat
  asset : OAMAsset
  deriving DecidableEq, Repr

inductive DNSRelation
  | basic (rrtype : Nat)
  | pref (rrtype : Nat)
  | srv (rrtype : Nat)
  deriving DecidableEq, Repr

structure Edge where
  rel : DNSRelation
  toEntity : Entity
  deriving DecidableEq, Repr

structure Repository where
  findEntityById : Nat → Option Entity
  outgoingEdges : Nat → List Edge
  findEntityByContent : GoStr → List Entity

/-- Embedding of `getAddr` from `utils/addr.go`: dereference the entity and
extract an IP address asset. -/
def getAddr (db : Repository) (ip : Entity) : Except String GoStr :=
  match db.findEntityById ip.id with
  | some entity =>
    match entity.asset with
    | .ipaddr a => .ok a
    | _ => .error "failed to extract the IP address"
  | none => .error "failed to extract the IP address"

/-- Test for an address-record edge (`BasicDNSRelation` with RRType 1 or 28). -/
def isAddrEdge (e : Edge) : Bool :=
  match e.rel with
  | .basic rr => rr == 1 || rr == 28
  | _ => false

/-- Embedding of `oneMoreName` from `utils/addr.go`: return `getAddr` of the
first address-record edge of the given name, an error when none exists. -/
def oneMoreName (db : Repository) (fqdn : Entity) : Except String GoStr :=
  match (db.outgoingEdges fqdn.id).find? isAddrEdge with
  | some edge => getAddr db edge.toEntity
  | none => .error "failed to traverse the FQDN"

/-- Result of one pass over a node's `dns_record` edges inside `cnameQuery`:
the first basic relation with RRType 1/28 yields the address branch, the
first with RRType 5 yields the follow branch, any other edge is skipped. -/
inductive EdgeScan
  | addr (e : Entity)
  | follow (e : Entity)
  | nothing
  deriving DecidableEq, Repr

/-- Inner edge loop of `cnameQuery` from `utils/addr.go`. -/
def scanDNSEdges : List Edge → EdgeScan
  | [] => .nothing
  | e :: rest =>
    match e.rel with
    | .basic rr =>
      if rr = 1 ∨ rr = 28 then .addr e.toEntity
      else if rr = 5 then .follow e.toEntity
      else scanDNSEdges rest
    | _ => scanDNSEdges rest

/-- Embedding of the bounded walk of `cnameQuery` from `utils/addr.go`.  The
fuel argument is the remaining count of the `for i := 0; i < 10; i++` loop;
the second component counts the iterations actually executed.  A failed node
lookup or a repeated asset key breaks out to the traversal error, an
address-record edge returns `getAddr`, a CNAME edge follows to the next
entity, and a pass finding neither re-enters the loop on the same entity
(whose key is then already visited). -/
def cnameQueryAux (db : Repository) (visited : List GoStr) (next : Entity) :
    Nat → Except String GoStr × Nat
  | 0 => (.error "failed to traverse the aliases", 0)
  | fuel + 1 =>
    match db.findEntityById next.id with
    | none => (.error "failed to traverse the aliases", 1)
    | some n =>
      if visited.contains n.asset.key then (.error "failed to traverse the aliases", 1)
      else
        match scanDNSEdges (db.outgoingEdges n.id) with
        | .addr e => (getAddr db e, 1)
        | .follow e =>
          let r := cnameQueryAux db (n.asset.key :: visited) e fuel
          (r.1, r.2 + 1)
        | .nothing =>
          let r := cnameQueryAux db (n.asset.key :: visited) next fuel
          (r.1, r.2 + 1)

theorem cnameQueryAux_succ (db : Repository) (visited : List GoStr)
    (next : Entity) (fuel : Nat) :
    cnameQueryAux db visited next (fuel + 1) =
      match db.findEntityById next.id with
      | none => (.error "failed to traverse the aliases", 1)
      | some n =>
        if visited.contains n.asset.key then
          (.error "failed to traverse the aliases", 1)
        else
          match scanDNSEdges (db.outgoingEdges n.id) with
          | .addr e => (getAddr db e, 1)
          | .follow e =>
            ((cnameQueryAux db (n.asset.key :: visited) e fuel).1,
              (cnameQueryAux db (n.asset.key :: visited) e fuel).2 + 1)
          | .nothing =>
            ((cnameQueryAux db (n.asset.key :: visited) next fuel).1,
              (cnameQueryAux db (n.asset.key :: visited) next fuel).2 + 1) := rfl

/-- Embedding of `cnameQuery` from `utils/addr.go`: the alias walk starts with
an empty visited set and at most 10 loop iterations. -/
def cnameQuery (db : Repository) (fqdn : Entity) : Except String GoStr :=
  (cnameQueryAux db [] fqdn 10).1

/-- Number of loop iterations `cnameQuery` executes. -/
def cnameQueryIters (db : Repository) (fqdn : Entity) : Nat :=
  (cnameQueryAux db [] fqdn 10).2

theorem cnameQueryAux_iters_le (db : Repository) :
    ∀ (fuel : Nat) (visited : List GoStr) (next : Entity),
      (cnameQueryAux db visited next fuel).2 ≤ fuel := by
  intro fuel
  induction fuel with
  | zero => intro visited next; simp [cnameQueryAux]
  | succ k ih =>
    intro visited next
    unfold cnameQueryAux
    cases db.findEntityById next.id with
    | none => simp
    | some n =>
      by_cases hv : n.asset.key ∈ visited
      · simp [hv]
      · have hvc : visited.contains n.asset.key = false := by simpa using hv
        cases hscan : scanDNSEdges (db.outgoingEdges n.id) with
        | addr e => simp [hv, hscan]
        | follow e =>
          simp only [hvc, hscan, Bool.false_eq_true, if_false]
          exact Nat.succ_le_succ (ih _ _)
        | nothing =>
          simp only [hvc, hscan, Bool.false_eq_true, if_false]
          exact Nat.succ_le_succ (ih _ _)

/-- Entity `a` of the two-node alias cycle `a → b → a`. -/
def cycleEntA : Entity := ⟨0, .fqdn (strOf "a")⟩

/-- Entity `b` of the two-node alias cycle `a → b → a`. -/
def cycleEntB : Entity := ⟨1, .fqdn (strOf "b")⟩

/-- Repository holding exactly the CNAME cycle `a → b → a`. -/
def cycleRepo : Repository where
  findEntityById i := if i = 0 then some cycleEntA else if i = 1 then some cycleEntB else none
  outgoingEdges i :=
    if i = 0 then [⟨.basic 5, cycleEntB⟩] else if i = 1 then [⟨.basic 5, cycleEntA⟩] else []
  findEntityByContent _ := []

/-- Claim C3: alias-chain resolution terminates on every graph.  The walk
executes at most 10 loop iterations on any repository; the moment the current
node's asset key is already in the visited set the walk stops with the
traversal error after that single iteration; and on the concrete cycle
`a → b → a` the query returns the traversal failure. -/
theorem cnameQuery_terminates :
    (∀ (db : Repository) (fqdn : Entity), cnameQueryIters db fqdn ≤ 10) ∧
    (∀ (db : Repository) (visited : List GoStr) (next : Entity) (fuel : Nat)
        (n : Entity), db.findEntityById next.id = some n →
        visited.contains n.asset.key = true →
        cnameQueryAux db visited next (fuel + 1) =
          (.error "failed to traverse the aliases", 1)) ∧
    cnameQuery cycleRepo cycleEntA = .error "failed to traverse the aliases" := by
  refine ⟨fun db fqdn => cnameQueryAux_iters_le db 10 [] fqdn, ?_, ?_⟩
  · intro db visited next fuel n hfind hvis
    have hv : n.asset.key ∈ visited := by simpa using hvis
    unfold cnameQueryAux
    rw [hfind]
    simp [hv]
  · rfl

/-- Witness for C3: on the concrete cycle the abort fires at the third
iteration, when entity `a` repeats in the visited set. -/
theorem cnameQuery_terminates_witness :
    cnameQueryAux cycleRepo [strOf "b", strOf "a"] cycleEntA 7 =
      (.error "failed to traverse the aliases", 1) :=
  cnameQuery_terminates.2.1 cycleRepo [strOf "b", strOf "a"] cycleEntA 6 cycleEntA
    (by rfl) (by decide)

/-- Per-name edge dispatch of `NamesToAddrs` from `utils/addr.go`: the first
edge whose record type applies and whose resolution succeeds yields the
address; a failing resolution moves on to the next edge. -/
def resolveDNSEdges (db : Repository) : List Edge → Option GoStr
  | [] => none
  | e :: rest =>
    match e.rel with
    | .basic rr =>
      if rr = 1 ∨ rr = 28 then
        match getAddr db e.toEntity with
        | .ok ip => some ip
        | .error _ => resolveDNSEdges db rest
      else if rr = 5 then
        match cnameQuery db e.toEntity with
        | .ok ip => some ip
        | .error _ => resolveDNSEdges db rest
      else resolveDNSEdges db rest
    | .pref rr =>
      if rr = 2 ∨ rr = 15 then
        match oneMoreName db e.toEntity with
        | .ok ip => some ip
        | .error _ => resolveDNSEdges db rest
      else resolveDNSEdges db rest
    | .srv rr =>
      if rr = 33 then
        match oneMoreName db e.toEntity with
        | .ok ip => some ip
        | .error _ => resolveDNSEdges db rest
      else resolveDNSEdges db rest

/-- Name carried by an FQDN asset, as the `fqdn.Asset.(*domain.FQDN)` assertion
reads it. -/
def fqdnAssetName : OAMAsset → GoStr
  | .fqdn n => n
  | _ => []

structure NameAddrPair where
  fqdn : GoStr
  addr : GoStr
  deriving DecidableEq, Repr

/-- Embedding of `NamesToAddrs` from `utils/addr.go`: each requested name whose
content lookup returns exactly one entity is resolved over its outgoing
`dns_record` edges, and every successful resolution contributes one pair. -/
def NamesToAddrs (db : Repository) (names : List GoStr) : List NameAddrPair :=
  let fqdns := names.filterMap fun name =>
    match db.findEntityByContent name with
    | [ent] => some ent
    | _ => none
  fqdns.filterMap fun ent =>
    (resolveDNSEdges db (db.outgoingEdges ent.id)).map fun ip =>
      ⟨fqdnAssetName ent.asset, ip⟩

/-- Claim C6: `NamesToAddrs` resolves each name by record type.  Each name
with a unique entity contributes the pair obtained from its edge resolution;
a leading address record (RRType 1 or 28) resolves immediately through
`getAddr`; a leading CNAME record (RRType 5) resolves through the alias walk,
whose step on a CNAME edge recurses to the next name; a leading NS, MX or SRV
record (RRType 2, 15 or 33) resolves through `oneMoreName`, which takes
exactly the one additional hop given by the referenced name's first address
record. -/
theorem namesToAddrs_by_record_type :
    (∀ (db : Repository) (name : GoStr) (ent : Entity),
        db.findEntityByContent name = [ent] →
        NamesToAddrs db [name] =
          ((resolveDNSEdges db (db.outgoingEdges ent.id)).map fun ip =>
            (⟨fqdnAssetName ent.asset, ip⟩ : NameAddrPair)).toList) ∧
    (∀ (db : Repository) (e : Entity) (rest : List Edge) (rr : Nat) (ip : GoStr),
        rr = 1 ∨ rr = 28 → getAddr db e = .ok ip →
        resolveDNSEdges db (⟨.basic rr, e⟩ :: rest) = some ip) ∧
    (∀ (db : Repository) (e : Entity) (rest : List Edge) (ip : GoStr),
        cnameQuery db e = .ok ip →
        resolveDNSEdges db (⟨.basic 5, e⟩ :: rest) = some ip) ∧
    (∀ (db : Repository) (visited : List GoStr) (next n e : Entity) (fuel : Nat),
        db.findEntityById next.id = some n →
        visited.contains n.asset.key = false →
        scanDNSEdges (db.outgoingEdges n.id) = .follow e →
        (cnameQueryAux db visited next (fuel + 1)).1 =
          (cnameQueryAux db (n.asset.key :: visited) e fuel).1) ∧
    (∀ (db : Repository) (e : Entity) (rest : List Edge) (rr : Nat) (ip : GoStr),
        rr = 2 ∨ rr = 15 → oneMoreName db e = .ok ip →
        resolveDNSEdges db (⟨.pref rr, e⟩ :: rest) = some ip) ∧
    (∀ (db : Repository) (e : Entity) (rest : List Edge) (ip : GoStr),
        oneMoreName db e = .ok ip →
        resolveDNSEdges db (⟨.srv 33, e⟩ :: rest) = some ip) ∧
    (∀ (db : Repository) (f : Entity) (edge : Edge),
        (db.outgoingEdges f.id).find? isAddrEdge = some edge →
        oneMoreName db f = getAddr db edge.toEntity) := by
  refine ⟨?_, ?_, ?_, ?_, ?_, ?_, ?_⟩
  · intro db name ent hfind
    simp only [NamesToAddrs, hfind, List.filterMap_cons, List.filterMap_nil]
    cases resolveDNSEdges db (db.outgoingEdges ent.id) <;> rfl
  · intro db e rest rr ip hrr hget
    simp [resolveDNSEdges, hrr, hget]
  · intro db e rest ip hc
    simp [resolveDNSEdges, hc]
  · intro db visited next n e fuel hfind hvis hscan
    have hv : n.asset.key ∉ visited := by simpa using hvis
    rw [cnameQueryAux_succ, hfind]
    simp [hv, hscan]
  · intro db e rest rr ip hrr hone
    simp [resolveDNSEdges, hrr, hone]
  · intro db e rest ip hone
    simp [resolveDNSEdges, hone]
  · intro db f edge hfindedge
    simp [oneMoreName, hfindedge]

/-- Concrete repository for the C6 witness: `www` has an A record to the
address `1.2.3.4`, `alias` has a CNAME to `www`, and `mail` has an MX record
to `www`. -/
def c6Repo : Repository where
  findEntityById i :=
    if i = 0 then some ⟨0, .fqdn (strOf "www")⟩
    else if i = 1 then some ⟨1, .ipaddr (strOf "1.2.3.4")⟩
    else if i = 2 then some ⟨2, .fqdn (strOf "alias")⟩
    else if i = 3 then some ⟨3, .fqdn (strOf "mail")⟩
    else none
  outgoingEdges i :=
    if i = 0 then [⟨.basic 1, ⟨1, .ipaddr (strOf "1.2.3.4")⟩⟩]
    else if i = 2 then [⟨.basic 5, ⟨0, .fqdn (strOf "www")⟩⟩]
    else if i = 3 then [⟨.pref 15, ⟨0, .fqdn (strOf "www")⟩⟩]
    else []
  findEntityByContent name :=
    if name = strOf "www" then [⟨0, .fqdn (strOf "www")⟩]
    else if name = strOf "alias" then [⟨2, .fqdn (strOf "alias")⟩]
    else if name = strOf "mail" then [⟨3, .fqdn (strOf "mail")⟩]
    else []

/-- Witness for C6: on the concrete repository the address record, the CNAME
chain and the MX indirection each produce the expected pair. -/
theorem namesToAddrs_by_record_type_witness :
    NamesToAddrs c6Repo [strOf "www"] =
      ((resolveDNSEdges c6Repo (c6Repo.outgoingEdges 0)).map fun ip =>
        (⟨fqdnAssetName (OAMAsset.fqdn (strOf "www")), ip⟩ : NameAddrPair)).toList ∧
    resolveDNSEdges c6Repo [⟨.basic 1, ⟨1, .ipaddr (strOf "1.2.3.4")⟩⟩] =
      some (strOf "1.2.3.4") ∧
    resolveDNSEdges c6Repo [⟨.basic 5, ⟨0, .fqdn (strOf "www")⟩⟩] =
      some (strOf "1.2.3.4") ∧
    resolveDNSEdges c6Repo [⟨.pref 15, ⟨0, .fqdn (strOf "www")⟩⟩] =
      some (strOf "1.2.3.4") :=
  ⟨namesToAddrs_by_record_type.1 c6Repo (strOf "www") ⟨0, .fqdn (strOf "www")⟩ (by rfl),
   namesToAddrs_by_record_type.2.1 c6Repo ⟨1, .ipaddr (strOf "1.2.3.4")⟩ [] 1
     (strOf "1.2.3.4") (Or.inl rfl) (by rfl),
   namesToAddrs_by_record_type.2.2.1 c6Repo ⟨0, .fqdn (strOf "www")⟩ []
     (strOf "1.2.3.4") (by rfl),
   namesToAddrs_by_record_type.2.2.2.2.1 c6Repo ⟨0, .fqdn (strOf "www")⟩ [] 15
     (strOf "1.2.3.4") (Or.inr rfl) (by rfl)⟩

/-!
LetItGo plugin handlers, from `engine/plugins/scrape/letitgo.go` and the
unnamed scrape sources.  A handler invocation is abstracted to the sequence
of cache and network operations it performs.
-/

inductive PluginAction
  | externalQuery
  | cacheLookup
  | markMonitored
  | processed
  deriving DecidableEq, Repr

set_option linter.unusedVariables false

/-- Embedding of `letitgo.check` from `engine/plugins/scrape/letitgo.go`.
The `monitored` argument records whether the (asset, source) pair is within
its TTL window; this variant never consults it.  The callback runs the query
(always a fresh external call), returns after logging when the query errors,
and otherwise marks the asset monitored and processes any entities. -/
def letitgoPlainCheck (monitored : Bool) (queryRes : Except String (List Nat)) :
    List PluginAction :=
  PluginAction.externalQuery ::
    match queryRes with
    | .error _ => []
    | .ok entities =>
      PluginAction.markMonitored ::
        (if entities.length > 0 then [PluginAction.processed] else [])

set_option linter.unusedVariables true

/-- Inputs of one invocation of the TTL-gated `letitgo.check` variant
(`part_004`): the FQDN extraction, the scope answer, the TTL window start,
the monitored flag, and the outcomes of the cached lookup and of the fresh
query. -/
structure CheckEnv where
  entityIsFQDN : Bool
  fqdnName : GoStr
  scopeMatch : Option OAMAsset
  scopeConf : Nat
  ttlStart : Except String Unit
  monitored : Bool
  lookupRes : List Nat
  queryRes : Except String (List Nat)

/-- Embedding of the TTL-gated `letitgo.check` from `part_004`: extract the
FQDN, require a scope match whose name folds equal, compute the TTL start,
then branch on `AssetMonitoredWithinTTL` — a hit reads cached assets, a miss
runs the query and marks the asset monitored on success. -/
def letitgoTTLCheck (env : CheckEnv) : Except String (List PluginAction) :=
  if ¬env.entityIsFQDN then .error "failed to extract the FQDN asset"
  else
    match env.scopeMatch with
    | none => .ok []
    | some a =>
      if env.scopeConf = 0 then .ok []
      else
        match a with
        | .fqdn fname =>
          if ¬equalFold env.fqdnName fname then .ok []
          else
            match env.ttlStart with
            | .error msg => .error msg
            | .ok _ =>
              if env.monitored then
                .ok (PluginAction.cacheLookup ::
                  (if env.lookupRes.length > 0 then [PluginAction.processed] else []))
              else
                match env.queryRes with
                | .error _ => .ok [PluginAction.externalQuery]
                | .ok entities =>
                  .ok (PluginAction.externalQuery :: PluginAction.markMonitored ::
                    (if entities.length > 0 then [PluginAction.processed] else []))
        | _ => .ok []

/-- Counterexample to claim C2: the `letitgo.check` of
`engine/plugins/scrape/letitgo.go` performs a fresh external query even when
the (asset, source) pair is monitored within its TTL window, so not every
plugin handler follows the TTL two-branch pattern. -/
theorem letitgoPlainCheck_ignores_ttl :
    letitgoPlainCheck true (.ok [1]) =
      [PluginAction.externalQuery, PluginAction.markMonitored,
        PluginAction.processed] ∧
    PluginAction.externalQuery ∈ letitgoPlainCheck true (.ok [1]) := by
  constructor
  · rfl
  · decide

/-- Claim C2 as amended: the TTL-gated `letitgo.check` variant follows the
two-branch pattern — on a TTL hit the handler performs no fresh external
query and no mark, only cached reads; on a TTL miss with all gates passed it
performs the external query, and marks the asset monitored exactly when the
query succeeded — but the variant in `engine/plugins/scrape/letitgo.go`
skips the gate entirely. -/
theorem letitgoTTLCheck_two_branch :
    (∀ (env : CheckEnv) (acts : List PluginAction),
        env.monitored = true → letitgoTTLCheck env = .ok acts →
        PluginAction.externalQuery ∉ acts ∧ PluginAction.markMonitored ∉ acts) ∧
    (∀ (env : CheckEnv) (fname : GoStr) (acts : List PluginAction),
        env.monitored = false → env.entityIsFQDN = true →
        env.scopeMatch = some (.fqdn fname) → env.scopeConf ≠ 0 →
        equalFold env.fqdnName fname = true → env.ttlStart = .ok () →
        letitgoTTLCheck env = .ok acts →
        PluginAction.externalQuery ∈ acts ∧
          (PluginAction.markMonitored ∈ acts ↔ ∃ l, env.queryRes = .ok l)) := by
  constructor
  · intro env acts hm heq
    unfold letitgoTTLCheck at heq
    by_cases h1 : env.entityIsFQDN = true
    · rw [if_neg (by simp [h1])] at heq
      cases hm2 : env.scopeMatch with
      | none => rw [hm2] at heq; dsimp only at heq; cases heq; simp
      | some a =>
        rw [hm2] at heq
        dsimp only at heq
        by_cases h2 : env.scopeConf = 0
        · rw [if_pos h2] at heq; cases heq; simp
        · rw [if_neg h2] at heq
          cases a with
          | ipaddr x => dsimp only at heq; cases heq; simp
          | fqdn fname =>
            dsimp only at heq
            by_cases h3 : equalFold env.fqdnName fname = true
            · rw [if_neg (by simp [h3])] at heq
              cases ht : env.ttlStart with
              | error msg => rw [ht] at heq; dsimp only at heq; cases heq
              | ok u =>
                rw [ht] at heq
                dsimp only at heq
                rw [hm] at heq
                simp only [if_true] at heq
                cases heq
                by_cases h4 : env.lookupRes.length > 0 <;> simp [h4]
            · rw [if_pos (by simpa using h3)] at heq; cases heq; simp
    · rw [if_pos (by simpa using h1)] at heq; cases heq
  · intro env fname acts hm hfq hsc hconf hfold httl heq
    unfold letitgoTTLCheck at heq
    rw [if_neg (by simp [hfq]), hsc] at heq
    dsimp only at heq
    rw [if_neg hconf, if_neg (by simp [hfold]), httl] at heq
    dsimp only at heq
    rw [hm] at heq
    simp only [Bool.false_eq_true, if_false] at heq
    cases hq : env.queryRes with
    | error msg =>
      rw [hq] at heq; dsimp only at heq; cases heq
      simp [hq]
    | ok l =>
      rw [hq] at heq; dsimp only at heq; cases heq
      refine ⟨by simp, ?_⟩
      simp [hq]

/-- Witness for C2's amended theorem: a TTL hit reads only the cache, and a
TTL miss with a successful query performs the external call and the mark. -/
theorem letitgoTTLCheck_two_branch_witness :
    (PluginAction.externalQuery ∉
        [PluginAction.cacheLookup, PluginAction.processed] ∧
      PluginAction.markMonitored ∉
        [PluginAction.cacheLookup, PluginAction.processed]) ∧
    (PluginAction.externalQuery ∈
        [PluginAction.externalQuery, PluginAction.markMonitored,
          PluginAction.processed] ∧
      (PluginAction.markMonitored ∈
          [PluginAction.externalQuery, PluginAction.markMonitored,
            PluginAction.processed] ↔
        ∃ l, (Except.ok [7] : Except String (List Nat)) = .ok l)) :=
  ⟨letitgoTTLCheck_two_branch.1
      ⟨true, strOf "a.com", some (.fqdn (strOf "a.com")), 1, .ok (), true, [5],
        .ok [7]⟩
      [PluginAction.cacheLookup, PluginAction.processed] rfl rfl,
   letitgoTTLCheck_two_branch.2
      ⟨true, strOf "a.com", some (.fqdn (strOf "a.com")), 1, .ok (), false, [5],
        .ok [7]⟩
      (strOf "a.com")
      [PluginAction.externalQuery, PluginAction.markMonitored,
        PluginAction.processed]
      rfl rfl rfl (by decide) (by decide) rfl rfl⟩

/-!
Scope-gated event re-submission, from the `letitgo.Run` dispatch loop of
`part_003` (and the matching loop in `part_002`): each bare domain is checked
against the session scope; only a positive confidence leads to asset creation
and a dispatched event, and a dispatch error aborts the loop.
-/

/-- Embedding of the bare-domain loop of `letitgo.Run`: `scopeConf` is the
confidence returned by `IsAssetInScope`, `create` the outcome of
`CreateAsset` (entity id, `none` on failure), `dispatchOk` the outcome of
`DispatchEvent`.  Returns the created names, the names an event was
dispatched for, and whether the loop completed without a dispatch error. -/
def letitgoRunDispatch (scopeConf : GoStr → Nat) (create : GoStr → Option Nat)
    (dispatchOk : GoStr → Bool) : List GoStr → List GoStr × List GoStr × Bool
  | [] => ([], [], true)
  | d :: rest =>
    if scopeConf d > 0 then
      match create d with
      | some _ =>
        if dispatchOk d then
          let r := letitgoRunDispatch scopeConf create dispatchOk rest
          (d :: r.1, d :: r.2.1, r.2.2)
        else ([d], [d], false)
      | none => letitgoRunDispatch scopeConf create dispatchOk rest
    else letitgoRunDispatch scopeConf create dispatchOk rest

/-- Claim C5: an out-of-scope discovered domain is never re-entered into the
engine.  A bare domain with zero scope confidence has no asset created and no
event dispatched for it, and every dispatched domain has positive confidence
and a created asset. -/
theorem letitgoRun_scope_filter
    (scopeConf : GoStr → Nat) (create : GoStr → Option Nat)
    (dispatchOk : GoStr → Bool) (doms : List GoStr) (d : GoStr) :
    (scopeConf d = 0 →
      d ∉ (letitgoRunDispatch scopeConf create dispatchOk doms).1 ∧
      d ∉ (letitgoRunDispatch scopeConf create dispatchOk doms).2.1) ∧
    (d ∈ (letitgoRunDispatch scopeConf create dispatchOk doms).2.1 →
      0 < scopeConf d ∧
        d ∈ (letitgoRunDispatch scopeConf create dispatchOk doms).1) := by
  induction doms with
  | nil => simp [letitgoRunDispatch]
  | cons a rest ih =>
    unfold letitgoRunDispatch
    by_cases hs : scopeConf a > 0
    · simp only [hs, if_true]
      cases hc : create a with
      | some n =>
        by_cases hd : dispatchOk a
        · simp only [hd, if_true]
          constructor
          · intro hz
            have hne : d ≠ a := by
              intro he; rw [← he, hz] at hs; exact Nat.lt_irrefl 0 hs
            simp only [List.mem_cons, not_or]
            exact ⟨⟨hne, (ih.1 hz).1⟩, ⟨hne, (ih.1 hz).2⟩⟩
          · intro hmem
            rcases List.mem_cons.mp hmem with he | hmem2
            · subst he; exact ⟨hs, List.mem_cons_self _ _⟩
            · exact ⟨(ih.2 hmem2).1, List.mem_cons_of_mem _ (ih.2 hmem2).2⟩
        · simp only [hd, Bool.false_eq_true, if_false]
          constructor
          · intro hz
            have hne : d ≠ a := by
              intro he; rw [← he, hz] at hs; exact Nat.lt_irrefl 0 hs
            simp [hne]
          · intro hmem
            have he : d = a := by simpa using hmem
            subst he
            exact ⟨hs, by simp⟩
      | none => exact ih
    · simp only [hs, if_false]
      exact ih

/-- Witness for C5, following the spec's end-to-end example: with
`www.example.com` in scope and `partner.org` out of scope, no asset is
created and no event dispatched for `partner.org`. -/
theorem letitgoRun_scope_filter_witness :
    strOf "partner.org" ∉
      (letitgoRunDispatch
        (fun d => if d = strOf "www.example.com" then 100 else 0)
        (fun _ => some 1) (fun _ => true)
        [strOf "www.example.com", strOf "partner.org"]).1 ∧
    strOf "partner.org" ∉
      (letitgoRunDispatch
        (fun d => if d = strOf "www.example.com" then 100 else 0)
        (fun _ => some 1) (fun _ => true)
        [strOf "www.example.com", strOf "partner.org"]).2.1 :=
  (letitgoRun_scope_filter
      (fun d => if d = strOf "www.example.com" then 100 else 0)
      (fun _ => some 1) (fun _ => true)
      [strOf "www.example.com", strOf "partner.org"]
      (strOf "partner.org")).1 (by decide)

/-!
Federation-response filtering inside the TTL-gated `letitgo.query`
(`part_004`, with the same loop in `part_002`): response domains ending with
`onmicrosoft.com` are skipped, the remainder are reduced to their effective
TLD plus one (an external public-suffix-list library, modelled as a
parameter) and inserted lower-cased into a string set; an empty set is
reported as the error `no valid domains found`.
-/

/-- Set insertion into the `stringset` modelling its deduplication. -/
def insertUnique (x : GoStr) (l : List GoStr) : List GoStr :=
  if x ∈ l then l else x :: l

/-- Embedding of the response-domain loop of `letitgo.query`: skip domains
with the `onmicrosoft.com` suffix, apply the external `EffectiveTLDPlusOne`
(`etld1`), and insert the lower-cased result. -/
def filterFederationDomains (etld1 : GoStr → Option GoStr) :
    List GoStr → List GoStr
  | [] => []
  | d :: rest =>
    if hasSuffix d (strOf "onmicrosoft.com") then filterFederationDomains etld1 rest
    else
      match etld1 d with
      | some bare => insertUnique (toLowerStr bare) (filterFederationDomains etld1 rest)
      | none => filterFederationDomains etld1 rest

theorem filterFederationDomains_cons (etld1 : GoStr → Option GoStr)
    (d : GoStr) (rest : List GoStr) :
    filterFederationDomains etld1 (d :: rest) =
      if hasSuffix d (strOf "onmicrosoft.com") then
        filterFederationDomains etld1 rest
      else
        match etld1 d with
        | some bare =>
          insertUnique (toLowerStr bare) (filterFederationDomains etld1 rest)
        | none => filterFederationDomains etld1 rest := rfl

/-- Embedding of the result handling of `letitgo.query` (`part_004`): a
network or parse failure propagates as an error, an empty filtered set
becomes the error `no valid domains found`, and otherwise the filtered names
are stored and returned. -/
def letitgoQuery (etld1 : GoStr → Option GoStr)
    (resp : Except String (List GoStr)) (store : List GoStr → List Nat) :
    Except String (List Nat) :=
  match resp with
  | .error e => .error e
  | .ok doms =>
    let subs := filterFederationDomains etld1 doms
    if subs = [] then .error "no valid domains found"
    else .ok (store subs)

/-- Counterexample to claim C7: a query whose search completes successfully
with zero findings does not return an empty success — it returns the error
`no valid domains found`. -/
theorem letitgoQuery_empty_success_is_error :
    letitgoQuery (fun _ => none) (.ok []) (fun _ => []) =
      .error "no valid domains found" := rfl

/-- Claim C7 as amended: `letitgo.query` returns an error both when the
search itself failed and when it succeeded with zero findings (the latter as
`no valid domains found`); a successful return carries the stored entities of
a non-empty filtered domain set, so "found nothing" and "failed to search"
are conflated at the query's return value rather than distinguished. -/
theorem letitgoQuery_error_paths :
    (∀ (etld1 : GoStr → Option GoStr) (store : List GoStr → List Nat)
        (doms : List GoStr), filterFederationDomains etld1 doms = [] →
        letitgoQuery etld1 (.ok doms) store = .error "no valid domains found") ∧
    (∀ (etld1 : GoStr → Option GoStr) (store : List GoStr → List Nat)
        (msg : String), letitgoQuery etld1 (.error msg) store = .error msg) ∧
    (∀ (etld1 : GoStr → Option GoStr) (store : List GoStr → List Nat)
        (doms : List GoStr) (l : List Nat),
        letitgoQuery etld1 (.ok doms) store = .ok l →
        filterFederationDomains etld1 doms ≠ [] ∧
          l = store (filterFederationDomains etld1 doms)) := by
  refine ⟨?_, ?_, ?_⟩
  · intro etld1 store doms h
    simp [letitgoQuery, h]
  · intro etld1 store msg
    rfl
  · intro etld1 store doms l heq
    unfold letitgoQuery at heq
    dsimp only at heq
    by_cases h : filterFederationDomains etld1 doms = []
    · rw [if_pos h] at heq; cases heq
    · rw [if_neg h] at heq
      cases heq
      exact ⟨h, rfl⟩

/-- Witness for C7's amended theorem: a server response listing only an
`onmicrosoft.com` domain filters to the empty set and yields the error. -/
theorem letitgoQuery_error_paths_witness :
    letitgoQuery (fun _ => none) (.ok [strOf "x.onmicrosoft.com"]) (fun _ => []) =
      .error "no valid domains found" :=
  letitgoQuery_error_paths.1 (fun _ => none) (fun _ => [])
    [strOf "x.onmicrosoft.com"] (by decide)

/-- Modelled behaviour of the external `EffectiveTLDPlusOne` on the single
input the C9 counterexample needs: the public suffix list registers
`onmicrosoft.com` as a public suffix and the library normalizes case, so the
effective TLD plus one of `foo.OnMicrosoft.com` is `foo.onmicrosoft.com`. -/
def etldDemo (d : GoStr) : Option GoStr :=
  if d = strOf "foo.OnMicrosoft.com" then some (strOf "foo.onmicrosoft.com")
  else none

/-- Counterexample to claim C9: the `onmicrosoft.com` exclusion is
case-sensitive and happens before lower-casing, so the response domain
`foo.OnMicrosoft.com` passes the filter and is stored as
`foo.onmicrosoft.com`, a name ending with the `onmicrosoft.com` suffix. -/
theorem filterFederation_onmicrosoft_leak :
    filterFederationDomains etldDemo [strOf "foo.OnMicrosoft.com"] =
      [strOf "foo.onmicrosoft.com"] ∧
    hasSuffix (strOf "foo.onmicrosoft.com") (strOf "onmicrosoft.com") = true := by
  constructor
  · decide
  · decide

/-- Claim C9 as amended: every domain passed to store is the lower-cased
effective TLD plus one of some response domain that does not end
case-sensitively with `onmicrosoft.com`; no stored name contains an ASCII
upper-case letter; and response domains carrying the case-sensitive suffix
contribute nothing — but a case variant of the suffix can still reach store,
as the counterexample shows. -/
theorem filterFederation_lowercase_etld1 :
    (∀ (etld1 : GoStr → Option GoStr) (doms : List GoStr) (n : GoStr),
        n ∈ filterFederationDomains etld1 doms →
        ∃ d bare, d ∈ doms ∧ hasSuffix d (strOf "onmicrosoft.com") = false ∧
          etld1 d = some bare ∧ n = toLowerStr bare) ∧
    (∀ (etld1 : GoStr → Option GoStr) (doms : List GoStr) (n : GoStr)
        (r : Nat), n ∈ filterFederationDomains etld1 doms → r ∈ n →
        ¬(65 ≤ r ∧ r ≤ 90)) ∧
    (∀ (etld1 : GoStr → Option GoStr) (doms : List GoStr),
        filterFederationDomains etld1 doms =
          filterFederationDomains etld1
            (doms.filter fun d => !hasSuffix d (strOf "onmicrosoft.com"))) := by
  have hmem : ∀ (etld1 : GoStr → Option GoStr) (doms : List GoStr) (n : GoStr),
      n ∈ filterFederationDomains etld1 doms →
      ∃ d bare, d ∈ doms ∧ hasSuffix d (strOf "onmicrosoft.com") = false ∧
        etld1 d = some bare ∧ n = toLowerStr bare := by
    intro etld1 doms
    induction doms with
    | nil => intro n hn; cases hn
    | cons d rest ih =>
      intro n hn
      rw [filterFederationDomains_cons] at hn
      by_cases hsuf : hasSuffix d (strOf "onmicrosoft.com") = true
      · rw [if_pos hsuf] at hn
        obtain ⟨d', bare, hd', hs', he', hn'⟩ := ih n hn
        exact ⟨d', bare, List.mem_cons_of_mem _ hd', hs', he', hn'⟩
      · rw [if_neg hsuf] at hn
        cases he : etld1 d with
        | some bare =>
          rw [he] at hn
          dsimp only at hn
          unfold insertUnique at hn
          by_cases hin : toLowerStr bare ∈ filterFederationDomains etld1 rest
          · rw [if_pos hin] at hn
            obtain ⟨d', bare', hd', hs', he', hn'⟩ := ih n hn
            exact ⟨d', bare', List.mem_cons_of_mem _ hd', hs', he', hn'⟩
          · rw [if_neg hin] at hn
            rcases List.mem_cons.mp hn with hne | hn2
            · exact ⟨d, bare, List.mem_cons_self _ _,
                Bool.eq_false_iff.mpr hsuf, he, hne⟩
            · obtain ⟨d', bare', hd', hs', he', hn'⟩ := ih n hn2
              exact ⟨d', bare', List.mem_cons_of_mem _ hd', hs', he', hn'⟩
        | none =>
          rw [he] at hn
          dsimp only at hn
          obtain ⟨d', bare, hd', hs', he', hn'⟩ := ih n hn
          exact ⟨d', bare, List.mem_cons_of_mem _ hd', hs', he', hn'⟩
  refine ⟨hmem, ?_, ?_⟩
  · intro etld1 doms n r hn hr
    obtain ⟨d, bare, _, _, _, hlow⟩ := hmem etld1 doms n hn
    subst hlow
    obtain ⟨r0, _, hr0⟩ := List.mem_map.mp hr
    subst hr0
    unfold lowerRune
    by_cases hu : 65 ≤ r0 ∧ r0 ≤ 90
    · rw [if_pos hu]; omega
    · rw [if_neg hu]; exact hu
  · intro etld1 doms
    induction doms with
    | nil => rfl
    | cons d rest ih =>
      by_cases hsuf : hasSuffix d (strOf "onmicrosoft.com") = true
      · rw [filterFederationDomains_cons, if_pos hsuf, List.filter_cons]
        simp only [hsuf, Bool.not_true, Bool.false_eq_true, if_false]
        exact ih
      · have hsf : hasSuffix d (strOf "onmicrosoft.com") = false :=
          Bool.eq_false_iff.mpr hsuf
        rw [List.filter_cons]
        simp only [hsf, Bool.not_false, if_true]
        rw [filterFederationDomains_cons, if_neg hsuf,
          filterFederationDomains_cons, if_neg hsuf, ih]

/-- Witness for C9's amended theorem: the stored name produced by the
counterexample input is itself all lower-case and traced back to its
response domain. -/
theorem filterFederation_lowercase_etld1_witness :
    (∃ d bare, d ∈ [strOf "foo.OnMicrosoft.com"] ∧
        hasSuffix d (strOf "onmicrosoft.com") = false ∧
        etldDemo d = some bare ∧
        strOf "foo.onmicrosoft.com" = toLowerStr bare) ∧
    ¬(65 ≤ 102 ∧ (102 : Nat) ≤ 90) :=
  ⟨filterFederation_lowercase_etld1.1 etldDemo [strOf "foo.OnMicrosoft.com"]
      (strOf "foo.onmicrosoft.com") (by decide),
   filterFederation_lowercase_etld1.2.1 etldDemo [strOf "foo.OnMicrosoft.com"]
      (strOf "foo.onmicrosoft.com") 102 (by decide) (by decide)⟩

/-!
Session manager cancellation, from `engine/sessions/manager.go` (and the
matching `part_000` variant): `CancelSession` kills and deletes the session,
then polls the session statistics on a ticker until the work-item counters
are equal, and only then closes the cache, removes the temp directory,
closes the database and the event set, and removes the session from the
registry.  The poll loop is driven by the list of statistics values observed
at the ticks; an exhausted list means the loop is still polling, so the call
has not returned.
-/

structure ManagerState where
  sessions : List (Nat × SessionState)
  deriving DecidableEq, Repr

/-- Embedding of `manager.GetSession`: registry lookup by session id. -/
def getSession (m : ManagerState) (id : Nat) : Option SessionState :=
  (m.sessions.find? fun p => p.1 == id).map (·.2)

/-- Embedding of `Session.Kill` as used by the manager (the idempotent close
of the done channel). -/
def sessionKill (s : SessionState) : SessionState := (sessionKillOnce s).1

theorem sessionKill_preserves (s : SessionState) :
    (sessionKill s).hasCache = s.hasCache ∧ (sessionKill s).tmpDir = s.tmpDir ∧
      (sessionKill s).hasDB = s.hasDB := by
  unfold sessionKill sessionKillOnce
  by_cases h : s.done <;> simp [h]

/-- Modelled from the spec: the body of `Session.Delete` is not among the
sources; §4.5 attributes the resource release of the `Terminated` state to
manager cleanup, which `CancelSession` performs explicitly after the poll
loop, so `Delete` is modelled as marking the session deleted. -/
def sessionDelete (s : SessionState) : SessionState := { s with deleted := true }

/-- Registry update keeping every other session unchanged. -/
def updateSession (m : ManagerState) (id : Nat) (s : SessionState) :
    ManagerState :=
  ⟨m.sessions.map fun p => if p.1 = id then (id, s) else p⟩

/-- Registry removal, as `delete(r.sessions, id)`. -/
def removeSession (m : ManagerState) (id : Nat) : ManagerState :=
  ⟨m.sessions.filter fun p => !(p.1 == id)⟩

/-- Exit test of the ticker loop in `CancelSession`: the loop breaks when the
work-item counters are equal. -/
def cancelPollExit (ss : SessionStats) : Bool :=
  ss.workItemsTotal == ss.workItemsCompleted

/-- Resource releases `CancelSession` performs after the poll loop. -/
inductive CancelAction
  | closedCache
  | removedTmpDir
  | closedDB
  | closedEventSet
  deriving DecidableEq, Repr

/-- Embedding of `manager.CancelSession`: a missing session returns at once;
otherwise the session is killed and deleted, the statistics observations are
polled until one passes `cancelPollExit` (`none` when no observation ever
does, i.e. the call does not return and releases nothing), and on exit the
resources are released and the session removed from the registry. -/
def cancelSession (m : ManagerState) (id : Nat) (obs : List SessionStats) :
    Option (ManagerState × List CancelAction) :=
  match getSession m id with
  | none => some (m, [])
  | some s =>
    let s1 := sessionDelete (sessionKill s)
    let m1 := updateSession m id s1
    match obs.find? cancelPollExit with
    | none => none
    | some _ =>
      let acts :=
        (if s1.hasCache then [CancelAction.closedCache] else []) ++
        (if s1.tmpDir ≠ [] then [CancelAction.removedTmpDir] else []) ++
        (if s1.hasDB then [CancelAction.closedDB] else []) ++
        (if s1.hasEventSet then [CancelAction.closedEventSet] else [])
      some (removeSession m1 id, acts)

/-- Claim C4: `CancelSession` does not return while the completed counter is
below the total at every poll, and when it does return the cache was closed,
the temp directory removed, the store closed, and the session is no longer
reachable through `GetSession`. -/
theorem cancelSession_quiescence :
    (∀ (m : ManagerState) (id : Nat) (obs : List SessionStats)
        (s : SessionState), getSession m id = some s →
        (∀ ss ∈ obs, ss.workItemsCompleted < ss.workItemsTotal) →
        cancelSession m id obs = none) ∧
    (∀ (m : ManagerState) (id : Nat) (obs : List SessionStats)
        (s : SessionState) (m' : ManagerState) (acts : List CancelAction),
        getSession m id = some s →
        cancelSession m id obs = some (m', acts) →
        getSession m' id = none ∧
        (s.hasCache = true → CancelAction.closedCache ∈ acts) ∧
        (s.tmpDir ≠ [] → CancelAction.removedTmpDir ∈ acts) ∧
        (s.hasDB = true → CancelAction.closedDB ∈ acts)) := by
  constructor
  · intro m id obs s hget hlt
    unfold cancelSession
    rw [hget]
    have hfind : obs.find? cancelPollExit = none := by
      rw [List.find?_eq_none]
      intro ss hss
      have := hlt ss hss
      unfold cancelPollExit
      simp only [beq_iff_eq]
      omega
    rw [hfind]
  · intro m id obs s m' acts hget heq
    unfold cancelSession at heq
    rw [hget] at heq
    dsimp only at heq
    cases hfind : obs.find? cancelPollExit with
    | none => rw [hfind] at heq; cases heq
    | some ss =>
      rw [hfind] at heq
      cases heq
      refine ⟨?_, ?_, ?_, ?_⟩
      · unfold getSession removeSession
        rw [Option.map_eq_none', List.find?_eq_none]
        intro p hp hpid
        have := List.of_mem_filter hp
        rw [hpid] at this
        simp at this
      · intro hc
        have hc' : (sessionDelete (sessionKill s)).hasCache = true := by
          show (sessionKill s).hasCache = true
          rw [(sessionKill_preserves s).1]; exact hc
        simp [hc']
      · intro ht
        have ht' : (sessionDelete (sessionKill s)).tmpDir ≠ [] := by
          show (sessionKill s).tmpDir ≠ []
          rw [(sessionKill_preserves s).2.1]; exact ht
        simp [ht']
      · intro hd
        have hd' : (sessionDelete (sessionKill s)).hasDB = true := by
          show (sessionKill s).hasDB = true
          rw [(sessionKill_preserves s).2.2]; exact hd
        simp [hd']

/-- Witness for C4: with one busy observation the call does not return; with
a quiescent observation the session's resources are released and it is gone
from the registry. -/
theorem cancelSession_quiescence_witness :
    cancelSession ⟨[(1, ⟨false, false, true, strOf "/tmp/x", true, true⟩)]⟩ 1
        [⟨3, 7⟩] = none ∧
    (getSession
        (removeSession
          (updateSession ⟨[(1, ⟨false, false, true, strOf "/tmp/x", true, true⟩)]⟩
            1 (sessionDelete
              (sessionKill ⟨false, false, true, strOf "/tmp/x", true, true⟩))) 1)
        1 = none ∧
      (true = true → CancelAction.closedCache ∈
        [CancelAction.closedCache, CancelAction.removedTmpDir,
          CancelAction.closedDB, CancelAction.closedEventSet]) ∧
      (strOf "/tmp/x" ≠ [] → CancelAction.removedTmpDir ∈
        [CancelAction.closedCache, CancelAction.removedTmpDir,
          CancelAction.closedDB, CancelAction.closedEventSet]) ∧
      (true = true → CancelAction.closedDB ∈
        [CancelAction.closedCache, CancelAction.removedTmpDir,
          CancelAction.closedDB, CancelAction.closedEventSet])) :=
  ⟨cancelSession_quiescence.1 ⟨[(1, ⟨false, false, true, strOf "/tmp/x", true, true⟩)]⟩
      1 [⟨3, 7⟩] ⟨false, false, true, strOf "/tmp/x", true, true⟩ (by decide)
      (by intro ss hss; cases List.mem_singleton.mp hss; decide),
   cancelSession_quiescence.2 ⟨[(1, ⟨false, false, true, strOf "/tmp/x", true, true⟩)]⟩
      1 [⟨7, 7⟩] ⟨false, false, true, strOf "/tmp/x", true, true⟩ _ _
      (by decide) (by decide)⟩

end Amass
